import Mathlib

/-!
Verification of the rxmerr error-aggregation facade.

The repository (src/collector.go, src/doc.go) provides a stateful
`Collector` plus free functions `Combine`, `Append`, `Errors`,
`AppendInto`, `AppendFunc`, all thin wrappers around the external
multi-error aggregation library go.uber.org/multierr.  The wrapper code
is embedded from the source; the underlying aggregation library is not
part of the repository, so its operations are modelled from the
specification (sections 4.1 through 4.3 of spec.md).

A Go error value is modelled by `Option MErr`: `none` is the nil error
("absent"), `some (MErr.leaf t)` is an arbitrary non-aggregate error
(opaque, identified by a tag), and `some (MErr.multi es)` is an
aggregate whose ordered constituent sequence is `es`.  Error values
reachable through the public API are "well-formed": an aggregate always
holds at least two constituents and never holds a nested aggregate
(invariants I1 through I3 of the spec); `MErr.wf` captures this.
-/

namespace Rxmerr

/-- A non-nil Go error value: either an opaque non-aggregate error
identified by a tag, or a multi-error aggregate holding an ordered list
of constituent errors. -/
inductive MErr where
  | leaf (tag : Nat)
  | multi (errs : List MErr)

/-- Whether the error value is a plain (non-aggregate) error. -/
def MErr.isLeaf : MErr → Bool
  | .leaf _ => true
  | .multi _ => false

/-- Well-formedness of a non-nil error value as guaranteed by the
aggregation invariants I1 through I3: an aggregate holds at least two
constituents, each of which is a plain error (never a nested
aggregate). -/
def MErr.wf (e : MErr) : Bool :=
  match e with
  | .leaf _ => true
  | .multi es => decide (2 ≤ es.length) && es.all MErr.isLeaf

/-- Well-formedness of a possibly-nil error value. -/
def owf : Option MErr → Bool
  | none => true
  | some e => e.wf

/-- The ordered constituent sequence of a non-nil error value: a plain
error is its own single constituent; an aggregate contributes its
constituent list. -/
def MErr.constituents : MErr → List MErr
  | .leaf t => [.leaf t]
  | .multi es => es

/-- Modelled from the spec: the collapsing rule shared by merge and
combine (spec invariants I1 and I2, section 4.1).  A constituent
sequence of length zero collapses to absent, a sequence of length one
collapses to that single element, and any longer sequence is wrapped in
an aggregate. -/
def fromList : List MErr → Option MErr
  | [] => none
  | [e] => some e
  | es => some (.multi es)

/-- Modelled from the spec: `multierr.Append` (spec section 4.1,
`merge(current, next)`).  If `next` is absent the current value is
returned unchanged; if `current` is absent, `next` is returned
unchanged; otherwise the constituents of both sides are concatenated in
order (splicing aggregates, invariant I3) and the collapsing rule is
applied. -/
def multierrAppend (cur next : Option MErr) : Option MErr :=
  match cur, next with
  | cur, none => cur
  | none, some n => some n
  | some c, some n => fromList (c.constituents ++ n.constituents)

/-- Modelled from the spec: `multierr.Combine` (spec section 4.2),
reducing a finite ordered sequence of candidate errors by repeated
application of merge, left to right, starting from absent. -/
def multierrCombine (errs : List (Option MErr)) : Option MErr :=
  errs.foldl multierrAppend none

/-- Modelled from the spec: `multierr.Errors` (spec section 4.3,
`extract`).  Absent maps to the empty sequence, a plain error to its
one-element sequence, an aggregate to its constituent sequence without
further recursion. -/
def multierrErrors : Option MErr → List MErr
  | none => []
  | some e => e.constituents

/-- Modelled from the spec: `multierr.AppendInto` (spec section 4.4).
The first argument models the destination pointer: `none` is a nil
pointer, `some slot` a valid pointer to a slot currently holding
`slot`.  A nil pointer is a programmer error signalled by a panic,
modelled as `Except.error ()`, reached before any mutation; otherwise
the slot is replaced by the merge of its old value with the candidate
error. -/
def multierrAppendInto (dst : Option (Option MErr)) (err : Option MErr) :
    Except Unit (Option MErr) :=
  match dst with
  | none => Except.error ()
  | some slot => Except.ok (multierrAppend slot err)

/-- Modelled from the spec: `multierr.AppendFunc` (spec section 4.5),
which invokes the zero-argument operation `fn` and passes its result to
`multierr.AppendInto`. -/
def multierrAppendFunc (dst : Option (Option MErr)) (fn : Unit → Option MErr) :
    Except Unit (Option MErr) :=
  multierrAppendInto dst (fn ())

/-! ## The Collector type, embedded from src/collector.go -/

/-- `Collector` from src/collector.go: the aggregated error built via
`multierr.Append` together with the count of non-nil errors appended. -/
structure Collector where
  err : Option MErr
  count : Nat

/-- `NewCollector` from src/collector.go: a new, empty collector. -/
def NewCollector : Collector :=
  { err := none, count := 0 }

/-- `Collector.Append` from src/collector.go: a nil error is a no-op;
a non-nil error is merged into the aggregate via `multierr.Append` and
the count is incremented. -/
def Collector.Append (c : Collector) (err : Option MErr) : Collector :=
  match err with
  | none => c
  | some e => { err := multierrAppend c.err (some e), count := c.count + 1 }

/-- `Collector.AppendFunc` from src/collector.go: calls `fn` and appends
its returned error. -/
def Collector.AppendFunc (c : Collector) (fn : Unit → Option MErr) : Collector :=
  c.Append (fn ())

/-- `Collector.Err` from src/collector.go: the aggregated error
accumulated so far. -/
def Collector.Err (c : Collector) : Option MErr :=
  c.err

/-- `Collector.Len` from src/collector.go: the number of non-nil errors
collected so far. -/
def Collector.Len (c : Collector) : Nat :=
  c.count

/-- `Collector.HasError` from src/collector.go: whether at least one
non-nil error has been collected, computed as `count > 0`. -/
def Collector.HasError (c : Collector) : Bool :=
  decide (0 < c.count)

/-- `Collector.Reset` from src/collector.go: clears the aggregate and
the count. -/
def Collector.Reset (_ : Collector) : Collector :=
  { err := none, count := 0 }

/-- `Collector.Errors` from src/collector.go: nil when no errors were
collected, otherwise the underlying slice from `multierr.Errors`. -/
def Collector.Errors (c : Collector) : List MErr :=
  match c.err with
  | none => []
  | some e => multierrErrors (some e)

/-! ## Free functions, embedded from src/doc.go -/

/-- `Combine` from src/doc.go: a thin wrapper around
`multierr.Combine`. -/
def Combine (errs : List (Option MErr)) : Option MErr :=
  multierrCombine errs

/-- `Append` from src/doc.go: a thin wrapper around
`multierr.Append`. -/
def Append (left right : Option MErr) : Option MErr :=
  multierrAppend left right

/-- `Errors` from src/doc.go: a thin wrapper around
`multierr.Errors`. -/
def Errors (err : Option MErr) : List MErr :=
  multierrErrors err

/-- `AppendInto` from src/doc.go: a thin wrapper around
`multierr.AppendInto`. -/
def AppendInto (dst : Option (Option MErr)) (err : Option MErr) :
    Except Unit (Option MErr) :=
  multierrAppendInto dst err

/-- `AppendFunc` from src/doc.go: a thin wrapper around
`multierr.AppendFunc`. -/
def AppendFunc (dst : Option (Option MErr)) (fn : Unit → Option MErr) :
    Except Unit (Option MErr) :=
  multierrAppendFunc dst fn

/-! ## Execution harnesses for collector histories -/

/-- Runs a sequence of `Collector.Append` calls on a new collector. -/
def runAppends (es : List (Option MErr)) : Collector :=
  es.foldl Collector.Append NewCollector

/-- One mutation of a collector: an `Append`, an `AppendFunc`, or a
`Reset` call. -/
inductive CollectorOp where
  | append (err : Option MErr)
  | appendF (fn : Unit → Option MErr)
  | reset

/-- Applies one collector operation. -/
def CollectorOp.apply (c : Collector) : CollectorOp → Collector
  | .append e => c.Append e
  | .appendF fn => c.AppendFunc fn
  | .reset => c.Reset

/-- Whether the error an operation feeds to the collector is
well-formed; `Reset` always is. -/
def CollectorOp.wfOp : CollectorOp → Bool
  | .append e => owf e
  | .appendF fn => owf (fn ())
  | .reset => true

/-- Runs a sequence of collector operations on a new collector. -/
def runOps (ops : List CollectorOp) : Collector :=
  ops.foldl CollectorOp.apply NewCollector

/-- Whether a possibly-nil error value is nil or a plain non-aggregate
error. -/
def leafOrNone : Option MErr → Bool
  | none => true
  | some e => e.isLeaf

/-- Reads the current aggregate and then resets the collector, returning
the captured aggregate together with the collector state after the
reset. -/
def captureThenReset (c : Collector) : Option MErr × Collector :=
  (c.Err, c.Reset)

/-! ## Basic lemmas about the modelled aggregation operations -/

/-- Merging with an absent candidate returns the current value
unchanged. -/
theorem append_none_right (a : Option MErr) : multierrAppend a none = a := by
  cases a <;> rfl

/-- A well-formed non-nil error has at least one constituent. -/
theorem constituents_length_pos (e : MErr) (h : e.wf = true) :
    1 ≤ e.constituents.length := by
  cases e with
  | leaf t => simp [MErr.constituents]
  | multi es =>
    simp only [MErr.wf, Bool.and_eq_true, decide_eq_true_eq] at h
    simp only [MErr.constituents]
    omega

/-- Every constituent of a well-formed non-nil error is a plain
non-aggregate error. -/
theorem constituents_isLeaf (e : MErr) (h : e.wf = true) :
    ∀ x ∈ e.constituents, x.isLeaf = true := by
  cases e with
  | leaf t =>
    intro x hx
    simp only [MErr.constituents, List.mem_singleton] at hx
    subst hx
    rfl
  | multi es =>
    simp only [MErr.wf, Bool.and_eq_true, decide_eq_true_eq,
      List.all_eq_true] at h
    intro x hx
    exact h.2 x hx

/-- A plain non-aggregate error is well-formed. -/
theorem isLeaf_wf (e : MErr) (h : e.isLeaf = true) : e.wf = true := by
  cases e with
  | leaf t => rfl
  | multi es => simp [MErr.isLeaf] at h

/-- The constituent sequence of a plain non-aggregate error is the
one-element sequence holding it. -/
theorem constituents_of_leaf (e : MErr) (h : e.isLeaf = true) :
    e.constituents = [e] := by
  cases e with
  | leaf t => rfl
  | multi es => simp [MErr.isLeaf] at h

/-- The collapsing rule wraps any sequence of two or more constituents
in an aggregate. -/
theorem fromList_eq_multi : ∀ (l : List MErr), 2 ≤ l.length →
    fromList l = some (.multi l)
  | [], h => by simp at h
  | [_], h => by simp at h
  | _ :: _ :: _, _ => rfl

/-- Extraction distributes over merge on well-formed inputs: the
constituent sequence of a merge is the concatenation of the constituent
sequences of its operands. -/
theorem errors_append (a b : Option MErr)
    (ha : owf a = true) (hb : owf b = true) :
    multierrErrors (multierrAppend a b) =
      multierrErrors a ++ multierrErrors b := by
  cases a with
  | none =>
    cases b with
    | none => rfl
    | some y => rfl
  | some x =>
    cases b with
    | none =>
      rw [append_none_right]
      exact (List.append_nil _).symm
    | some y =>
      have hx : 1 ≤ x.constituents.length := constituents_length_pos x ha
      have hy : 1 ≤ y.constituents.length := constituents_length_pos y hb
      have hlen : 2 ≤ (x.constituents ++ y.constituents).length := by
        simp only [List.length_append]
        omega
      show multierrErrors (fromList (x.constituents ++ y.constituents)) = _
      rw [fromList_eq_multi _ hlen]
      rfl

/-- Merge preserves well-formedness. -/
theorem append_wf (a b : Option MErr)
    (ha : owf a = true) (hb : owf b = true) :
    owf (multierrAppend a b) = true := by
  cases a with
  | none =>
    cases b with
    | none => rfl
    | some y => exact hb
  | some x =>
    cases b with
    | none => exact ha
    | some y =>
      have hx : 1 ≤ x.constituents.length := constituents_length_pos x ha
      have hy : 1 ≤ y.constituents.length := constituents_length_pos y hb
      have hlen : 2 ≤ (x.constituents ++ y.constituents).length := by
        simp only [List.length_append]
        omega
      show owf (fromList (x.constituents ++ y.constituents)) = true
      rw [fromList_eq_multi _ hlen]
      show MErr.wf (.multi (x.constituents ++ y.constituents)) = true
      simp only [MErr.wf, Bool.and_eq_true, decide_eq_true_eq,
        List.all_eq_true]
      refine ⟨hlen, ?_⟩
      intro z hz
      rcases List.mem_append.mp hz with h | h
      · exact constituents_isLeaf x ha z h
      · exact constituents_isLeaf y hb z h

/-- Merging a well-formed non-nil candidate into any well-formed current
value never yields the absent value. -/
theorem append_some_ne_none (a : Option MErr) (x : MErr)
    (ha : owf a = true) (hx : x.wf = true) :
    multierrAppend a (some x) ≠ none := by
  cases a with
  | none => simp [multierrAppend]
  | some c =>
    have hc : 1 ≤ c.constituents.length := constituents_length_pos c ha
    have hxl : 1 ≤ x.constituents.length := constituents_length_pos x hx
    have hlen : 2 ≤ (c.constituents ++ x.constituents).length := by
      simp only [List.length_append]
      omega
    show fromList (c.constituents ++ x.constituents) ≠ none
    rw [fromList_eq_multi _ hlen]
    simp

/-- Folding merge over a sequence of absent values leaves the
accumulator unchanged. -/
theorem foldl_append_all_none (es : List (Option MErr)) (acc : Option MErr)
    (h : ∀ e ∈ es, e = none) : es.foldl multierrAppend acc = acc := by
  induction es generalizing acc with
  | nil => rfl
  | cons e t ih =>
    have he : e = none := h e (List.mem_cons_self _ _)
    subst he
    rw [List.foldl_cons, append_none_right]
    exact ih acc (fun e' he' => h e' (List.mem_cons_of_mem _ he'))

/-! ## Lemmas about collector histories -/

/-- The count after a sequence of appends is the starting count plus the
number of non-nil appended errors. -/
theorem foldl_append_count (es : List (Option MErr)) (c : Collector) :
    (es.foldl Collector.Append c).count = c.count + es.countP Option.isSome := by
  induction es generalizing c with
  | nil => simp
  | cons e t ih =>
    cases e with
    | none =>
      rw [List.foldl_cons]
      show (t.foldl Collector.Append c).count = _
      rw [ih c]
      simp [List.countP_cons, Option.isSome]
    | some x =>
      rw [List.foldl_cons, ih]
      show c.count + 1 + t.countP Option.isSome = _
      simp [List.countP_cons]
      omega

/-- `Collector.Errors` agrees with extraction applied to the stored
aggregate. -/
theorem collector_Errors_eq (c : Collector) :
    c.Errors = multierrErrors c.err := by
  rcases c with ⟨e, n⟩
  cases e <;> rfl

/-- When every appended error is nil or a plain non-aggregate error, the
stored aggregate stays well-formed and its number of constituents stays
equal to the stored count. -/
theorem foldl_append_leaf_inv (es : List (Option MErr)) (c : Collector)
    (hc1 : owf c.err = true)
    (hc2 : (multierrErrors c.err).length = c.count)
    (h : ∀ e ∈ es, leafOrNone e = true) :
    owf ((es.foldl Collector.Append c).err) = true ∧
    (multierrErrors ((es.foldl Collector.Append c).err)).length =
      (es.foldl Collector.Append c).count := by
  induction es generalizing c with
  | nil => exact ⟨hc1, hc2⟩
  | cons e t ih =>
    rw [List.foldl_cons]
    cases e with
    | none => exact ih c hc1 hc2 (fun e' he' => h e' (List.mem_cons_of_mem _ he'))
    | some x =>
      have hx : x.isLeaf = true := h (some x) (List.mem_cons_self _ _)
      have hxwf : x.wf = true := isLeaf_wf x hx
      refine ih _ (append_wf c.err (some x) hc1 hxwf) ?_
        (fun e' he' => h e' (List.mem_cons_of_mem _ he'))
      show (multierrErrors (multierrAppend c.err (some x))).length = c.count + 1
      rw [errors_append c.err (some x) hc1 hxwf]
      have hone : multierrErrors (some x) = [x] := constituents_of_leaf x hx
      rw [hone]
      simp [List.length_append, hc2]

/-- One append call preserves the collector invariant: the stored
aggregate stays well-formed and is absent exactly when the count is
zero. -/
theorem append_preserves_inv (c : Collector) (e : Option MErr)
    (he : owf e = true) (hc1 : owf c.err = true)
    (hc2 : c.err = none ↔ c.count = 0) :
    owf ((c.Append e).err) = true ∧
    ((c.Append e).err = none ↔ (c.Append e).count = 0) := by
  cases e with
  | none => exact ⟨hc1, hc2⟩
  | some x =>
    refine ⟨append_wf c.err (some x) hc1 he, ?_⟩
    show multierrAppend c.err (some x) = none ↔ c.count + 1 = 0
    constructor
    · intro hn
      exact absurd hn (append_some_ne_none c.err x hc1 he)
    · intro hn
      omega

/-- Any sequence of well-formed collector operations preserves the
collector invariant. -/
theorem foldl_ops_inv (ops : List CollectorOp) (c : Collector)
    (hc1 : owf c.err = true) (hc2 : c.err = none ↔ c.count = 0)
    (h : ∀ op ∈ ops, op.wfOp = true) :
    owf ((ops.foldl CollectorOp.apply c).err) = true ∧
    ((ops.foldl CollectorOp.apply c).err = none ↔
      (ops.foldl CollectorOp.apply c).count = 0) := by
  induction ops generalizing c with
  | nil => exact ⟨hc1, hc2⟩
  | cons op t ih =>
    rw [List.foldl_cons]
    have hop : op.wfOp = true := h op (List.mem_cons_self _ _)
    have ht : ∀ op' ∈ t, op'.wfOp = true :=
      fun op' h' => h op' (List.mem_cons_of_mem _ h')
    cases op with
    | append e =>
      obtain ⟨h1, h2⟩ := append_preserves_inv c e hop hc1 hc2
      exact ih _ h1 h2 ht
    | appendF fn =>
      obtain ⟨h1, h2⟩ := append_preserves_inv c (fn ()) hop hc1 hc2
      exact ih _ h1 h2 ht
    | reset => exact ih _ rfl ⟨fun _ => rfl, fun _ => rfl⟩ ht

/-! ## Claim theorems -/

/-- Claim C1, counterexample: appending a single two-constituent
aggregate gives `Len() = 1` while `Errors()` has two elements, so the
count does not equal the length of the flattened constituent sequence
when an appended error is itself an aggregate. -/
theorem c1_counterexample :
    (runAppends [some (MErr.multi [.leaf 0, .leaf 1])]).Len ≠
      ((runAppends [some (MErr.multi [.leaf 0, .leaf 1])]).Errors).length := by
  decide

/-- Claim C1, amended: for every sequence of appends from a new
collector, `Len()` equals the number of appends that received a non-nil
error; and when every appended error is nil or a plain non-aggregate
error, `Len()` also equals the length of the sequence returned by
`Errors()`. -/
theorem c1_len_invariant (es : List (Option MErr)) :
    (runAppends es).Len = es.countP Option.isSome ∧
    ((∀ e ∈ es, leafOrNone e = true) →
      (runAppends es).Len = ((runAppends es).Errors).length) := by
  constructor
  · show (es.foldl Collector.Append NewCollector).count = es.countP Option.isSome
    rw [foldl_append_count]
    simp [NewCollector]
  · intro h
    obtain ⟨-, h2⟩ := foldl_append_leaf_inv es NewCollector rfl rfl h
    rw [collector_Errors_eq]
    exact h2.symm

/-- Claim C1, witness: appending a plain error, then nil, then another
plain error gives a count equal to the length of the extracted
sequence. -/
theorem c1_witness :
    (∀ e ∈ [some (MErr.leaf 0), none, some (MErr.leaf 1)], leafOrNone e = true) ∧
    (runAppends [some (MErr.leaf 0), none, some (MErr.leaf 1)]).Len =
      ((runAppends [some (MErr.leaf 0), none, some (MErr.leaf 1)]).Errors).length :=
  ⟨by decide, (c1_len_invariant _).2 (by decide)⟩

/-- Claim C2: on well-formed inputs, merging is associative in its
flattened observable form: extracting the constituents of
`merge(merge(a, b), c)` and of `merge(a, merge(b, c))` gives the same
ordered sequence. -/
theorem c2_append_flatten_assoc (a b c : Option MErr)
    (ha : owf a = true) (hb : owf b = true) (hc : owf c = true) :
    Errors (Append (Append a b) c) = Errors (Append a (Append b c)) := by
  show multierrErrors (multierrAppend (multierrAppend a b) c) =
    multierrErrors (multierrAppend a (multierrAppend b c))
  rw [errors_append _ c (append_wf a b ha hb) hc,
    errors_append a b ha hb,
    errors_append a _ ha (append_wf b c hb hc),
    errors_append b c hb hc,
    List.append_assoc]

/-- Claim C2, witness: associativity at a concrete triple containing an
aggregate. -/
theorem c2_witness :
    owf (some (MErr.multi [.leaf 0, .leaf 1])) = true ∧
    Errors (Append (Append (some (MErr.leaf 2))
        (some (MErr.multi [.leaf 0, .leaf 1]))) (some (MErr.leaf 3))) =
      Errors (Append (some (MErr.leaf 2))
        (Append (some (MErr.multi [.leaf 0, .leaf 1])) (some (MErr.leaf 3)))) :=
  ⟨by decide,
    c2_append_flatten_assoc _ _ _ (by decide) (by decide) (by decide)⟩

/-- Claim C3, counterexample: when the middle of the three non-nil
inputs is itself an aggregate, its constituents are spliced in, so the
extracted sequence is not the literal three-element sequence of the
inputs. -/
theorem c3_counterexample :
    Errors (Combine [some (MErr.leaf 0), some (MErr.multi [.leaf 1, .leaf 2]),
        some (MErr.leaf 3)]) ≠
      [MErr.leaf 0, MErr.multi [.leaf 1, .leaf 2], MErr.leaf 3] := by
  intro h
  exact absurd (congrArg List.length h) (by decide)

/-- Claim C3, amended: for every three non-nil plain (non-aggregate)
errors, extracting the combination gives exactly the literal input
sequence in order, with nothing dropped, deduplicated, or reordered. -/
theorem c3_order_preservation (t1 t2 t3 : Nat) :
    Errors (Combine [some (MErr.leaf t1), some (MErr.leaf t2),
        some (MErr.leaf t3)]) =
      [MErr.leaf t1, MErr.leaf t2, MErr.leaf t3] := rfl

/-- Claim C4: extraction maps the absent value to the empty sequence, a
plain error to its one-element sequence, an aggregate to its constituent
sequence without recursion, and on well-formed values that sequence is
already flat (every element is a plain non-aggregate error). -/
theorem c4_extract_shape :
    Errors none = [] ∧
    (∀ t, Errors (some (MErr.leaf t)) = [MErr.leaf t]) ∧
    (∀ es, Errors (some (MErr.multi es)) = es) ∧
    (∀ e, owf e = true → ∀ x ∈ Errors e, x.isLeaf = true) := by
  refine ⟨rfl, fun _ => rfl, fun _ => rfl, ?_⟩
  intro e he x hx
  cases e with
  | none => exact absurd hx (List.not_mem_nil x)
  | some e' => exact constituents_isLeaf e' he x hx

/-- Claim C4, witness: a concrete well-formed aggregate extracts to a
sequence of plain errors. -/
theorem c4_witness :
    owf (some (MErr.multi [.leaf 0, .leaf 1])) = true ∧
    MErr.isLeaf (.leaf 0) = true :=
  ⟨by decide,
    c4_extract_shape.2.2.2 (some (MErr.multi [.leaf 0, .leaf 1])) (by decide)
      (MErr.leaf 0) (List.mem_cons_self _ _)⟩

/-- Claim C5: combining zero inputs gives absent; combining inputs that
are all absent gives absent; a single non-absent input surrounded by
absent inputs is returned unchanged, never re-wrapped; in particular a
single plain error combines to itself. -/
theorem c5_combine_edge_cases :
    Combine [] = none ∧
    (∀ es, (∀ e ∈ es, e = none) → Combine es = none) ∧
    (∀ pre post x, (∀ e ∈ pre, e = none) → (∀ e ∈ post, e = none) →
      Combine (pre ++ some x :: post) = some x) ∧
    (∀ t, Combine [some (MErr.leaf t)] = some (MErr.leaf t)) := by
  refine ⟨rfl, ?_, ?_, fun _ => rfl⟩
  · intro es h
    exact foldl_append_all_none es none h
  · intro pre post x hpre hpost
    show (pre ++ some x :: post).foldl multierrAppend none = some x
    rw [List.foldl_append, foldl_append_all_none pre none hpre,
      List.foldl_cons]
    show post.foldl multierrAppend (some x) = some x
    exact foldl_append_all_none post (some x) hpost

/-- Claim C5, witness: a single non-absent aggregate surrounded by
absent inputs is returned unchanged. -/
theorem c5_witness :
    (∀ e ∈ [(none : Option MErr)], e = none) ∧
    Combine ([none] ++ some (MErr.multi [.leaf 0, .leaf 1]) :: [none]) =
      some (MErr.multi [.leaf 0, .leaf 1]) :=
  ⟨by simp,
    c5_combine_edge_cases.2.2.1 [none] [none] _ (by simp) (by simp)⟩

/-- Claim C6: the absent value is a two-sided identity for merge:
merging absent with absent gives absent, and merging absent with any
non-absent operand on either side returns that operand unchanged. -/
theorem c6_append_identity :
    Append none none = none ∧
    (∀ x : MErr, Append none (some x) = some x) ∧
    (∀ x : MErr, Append (some x) none = some x) :=
  ⟨rfl, fun _ => rfl, fun x => append_none_right (some x)⟩

/-- Claim C7: after any sequence of appends, capturing the aggregate and
then resetting gives a collector whose `Err` is nil, `Len` is zero and
`HasError` is false — in fact exactly the newly-created state — while
the captured value is still the aggregate that was current at capture
time. -/
theorem c7_reset_clears_state (es : List (Option MErr)) :
    (captureThenReset (runAppends es)).2.Err = none ∧
    (captureThenReset (runAppends es)).2.Len = 0 ∧
    (captureThenReset (runAppends es)).2.HasError = false ∧
    (captureThenReset (runAppends es)).2 = NewCollector ∧
    (captureThenReset (runAppends es)).1 = (runAppends es).Err :=
  ⟨rfl, rfl, rfl, rfl, rfl⟩

/-- Claim C8: calling `AppendInto` with a nil destination pointer panics
(modelled as `Except.error`) before any mutation, whatever the candidate
error is; and with a valid destination and a nil candidate error the
referenced value is left unchanged. -/
theorem c8_append_into_contract :
    (∀ e : Option MErr, AppendInto none e = Except.error ()) ∧
    (∀ s : Option MErr, AppendInto (some s) none = Except.ok s) := by
  refine ⟨fun _ => rfl, fun s => ?_⟩
  show Except.ok (multierrAppend s none) = Except.ok s
  rw [append_none_right]

/-- Claim C9: `Collector.AppendFunc fn` is the same state transformation
as `Collector.Append (fn ())`, and the free function `AppendFunc dst fn`
is the same operation as `AppendInto dst (fn ())`. -/
theorem c9_append_func_equiv :
    (∀ (c : Collector) (fn : Unit → Option MErr),
      c.AppendFunc fn = c.Append (fn ())) ∧
    (∀ (dst : Option (Option MErr)) (fn : Unit → Option MErr),
      AppendFunc dst fn = AppendInto dst (fn ())) :=
  ⟨fun _ _ => rfl, fun _ _ => rfl⟩

/-- Claim C10: for every collector reachable from `NewCollector` by
well-formed `Append`, `AppendFunc` and `Reset` calls, the stored
aggregate is nil exactly when the count is zero, and `HasError` is true
exactly when `Err` is non-nil. -/
theorem c10_collector_invariant (ops : List CollectorOp)
    (h : ∀ op ∈ ops, op.wfOp = true) :
    ((runOps ops).Err = none ↔ (runOps ops).Len = 0) ∧
    ((runOps ops).HasError = true ↔ (runOps ops).Err ≠ none) := by
  obtain ⟨-, h2⟩ := foldl_ops_inv ops NewCollector rfl
    ⟨fun _ => rfl, fun _ => rfl⟩ h
  have h2' : (runOps ops).err = none ↔ (runOps ops).count = 0 := h2
  refine ⟨h2', ?_⟩
  show decide (0 < (runOps ops).count) = true ↔ (runOps ops).err ≠ none
  rw [decide_eq_true_eq]
  constructor
  · intro hh hn
    have h0 := h2'.mp hn
    omega
  · intro hn
    have h0 : (runOps ops).count ≠ 0 := fun hz => hn (h2'.mpr hz)
    omega

/-- Claim C10, witness: the invariant at a concrete history containing
an append, a reset and an append-func call. -/
theorem c10_witness :
    (∀ op ∈ [CollectorOp.append (some (MErr.leaf 0)), CollectorOp.reset,
        CollectorOp.appendF (fun _ => some (MErr.leaf 1))], op.wfOp = true) ∧
    (((runOps [CollectorOp.append (some (MErr.leaf 0)), CollectorOp.reset,
        CollectorOp.appendF (fun _ => some (MErr.leaf 1))]).Err = none ↔
      (runOps [CollectorOp.append (some (MErr.leaf 0)), CollectorOp.reset,
        CollectorOp.appendF (fun _ => some (MErr.leaf 1))]).Len = 0) ∧
    ((runOps [CollectorOp.append (some (MErr.leaf 0)), CollectorOp.reset,
        CollectorOp.appendF (fun _ => some (MErr.leaf 1))]).HasError = true ↔
      (runOps [CollectorOp.append (some (MErr.leaf 0)), CollectorOp.reset,
        CollectorOp.appendF (fun _ => some (MErr.leaf 1))]).Err ≠ none)) :=
  ⟨by decide, c10_collector_invariant _ (by decide)⟩

end Rxmerr
